import Mathlib

/-!
Verification development for the `ai-parser` streaming SSE-style parser
(source: `src/unnamed/part_000`, the `Parser` class and its option model).

Modelling conventions (shallow embedding):
* JavaScript strings are modelled as `List Char`; the platform `TextDecoder`
  is out of scope, so the source's byte buffers appear here already decoded,
  one `List Char` per `read()` result, and the final `{done:true}` read
  (whose `value` is absent, contributing `''`) is implicit at the end of the
  chunk list.
* `String.prototype.split('\n')` is modelled by `splitNl`, which agrees with
  the JavaScript semantics (`'' ↦ [''], 'a\n' ↦ ['a','']`, …).
* The platform `JSON.parse` and the external `radash` `get` helper are not
  code of this repository; they enter the model as abstract parameters
  `jp : List Char → Option J` (parse failure = `none`, mirroring the thrown
  exception caught by the source) and `gp : J → String → Option (List Char)`
  (`none` mirrors `undefined` at the looked-up path).  `J` is the type of
  parsed JSON values.
* The custom-parser hook `chunkParser(chunk, context)` mutates `context` and
  returns a value; it is modelled as a function returning the pair
  (result, updated context).  The JavaScript test `result instanceof Error`
  is modelled by an abstract predicate `isErr : CVal → Bool`.
-/

/-- Values of the `chunkType` option (`'json' | 'text'`). -/
inductive ChunkType where
  | json
  | text
deriving DecidableEq, Repr

/-- Values of the `outputType` option (`'text' | 'obj'`). -/
inductive OutputType where
  | text
  | obj
deriving DecidableEq, Repr

/-- The option bag of the source's `ParserOption` interface.  Every field is
optional in TypeScript, so every field is an `Option` here; a `none` models an
absent (or `undefined`) key.  `Ctx` is the type of the mutable context object
and `CVal` the result type of a custom `chunkParser`. -/
structure ParserOption (Ctx CVal : Type) where
  chunkParser : Option (List Char → Ctx → CVal × Ctx) := none
  chunkType : Option ChunkType := none
  contentPath : Option String := none
  autoConcat : Option Bool := none
  outputType : Option OutputType := none
  validateChunk : Option (List Char → Option String) := none

/-- JavaScript object spread `{...base, ...extra}` on `ParserOption` keys:
a key present in `extra` wins, otherwise the key of `base` survives. -/
def mergeOptions {Ctx CVal : Type} (base extra : ParserOption Ctx CVal) :
    ParserOption Ctx CVal where
  chunkParser := extra.chunkParser <|> base.chunkParser
  chunkType := extra.chunkType <|> base.chunkType
  contentPath := extra.contentPath <|> base.contentPath
  autoConcat := extra.autoConcat <|> base.autoConcat
  outputType := extra.outputType <|> base.outputType
  validateChunk := extra.validateChunk <|> base.validateChunk

/-- The source's `defaultOptions`:
`{chunkType: 'json', contentPath: 'content', autoConcat: true}`.
Note that `outputType` is NOT among the defaults. -/
def defaultOptions {Ctx CVal : Type} : ParserOption Ctx CVal where
  chunkType := some ChunkType.json
  contentPath := some "content"
  autoConcat := some true

/-- The constructor body `this.options = {...defaultOptions, ...options}`:
the resolved options of `new Parser(options)`. -/
def Parser.new {Ctx CVal : Type} (options : ParserOption Ctx CVal) :
    ParserOption Ctx CVal :=
  mergeOptions defaultOptions options

/-- The closure produced by
`mapValues(PRESETS, config => options => new Parser({...options, ...config}))`,
applied to a preset `config`: the preset factory for that preset. -/
def Parser.presetFactory {Ctx CVal : Type} (config options : ParserOption Ctx CVal) :
    ParserOption Ctx CVal :=
  Parser.new (mergeOptions options config)

/-- The `OpenAi` entry of the source's `PRESETS` table. -/
def OpenAiConfig {Ctx CVal : Type} : ParserOption Ctx CVal where
  chunkType := some ChunkType.json
  contentPath := some "choices[0].delta.content"
  autoConcat := some true
  outputType := some OutputType.text

/-- The `Dify` entry of the source's `PRESETS` table. -/
def DifyConfig {Ctx CVal : Type} : ParserOption Ctx CVal where
  chunkType := some ChunkType.json
  contentPath := some "answer"
  autoConcat := some true
  outputType := some OutputType.text

/-- Preset factory `Parser.PRESETS.OpenAi`. -/
def Parser.PRESETS_OpenAi {Ctx CVal : Type} (options : ParserOption Ctx CVal) :
    ParserOption Ctx CVal :=
  Parser.presetFactory OpenAiConfig options

/-- Preset factory `Parser.PRESETS.Dify`. -/
def Parser.PRESETS_Dify {Ctx CVal : Type} (options : ParserOption Ctx CVal) :
    ParserOption Ctx CVal :=
  Parser.presetFactory DifyConfig options

/-- Model of JavaScript `text.split('\n')` on strings-as-char-lists.
Always returns at least one element; a trailing `'\n'` contributes a final
empty piece, exactly as in JavaScript. -/
def splitNl : List Char → List (List Char)
  | [] => [[]]
  | c :: rest =>
    if c = '\n' then [] :: splitNl rest
    else
      match splitNl rest with
      | [] => [[c]]
      | r :: rs => (c :: r) :: rs

/-- The five characters of the literal `'data:'` prefix. -/
def dataColon : List Char := ['d', 'a', 't', 'a', ':']

/-- Test `row.startsWith('data:')`. -/
def startsWithData (row : List Char) : Bool :=
  decide (row.take 5 = dataColon)

/-- JavaScript `String.prototype.trim` (whitespace stripped at both ends),
applied by the source before `JSON.parse`. -/
def trimChars (s : List Char) : List Char :=
  ((s.dropWhile Char.isWhitespace).reverse.dropWhile Char.isWhitespace).reverse

/-- A value yielded by `Parser.parse`: a plain string (the
`outputType === 'text'` branch), an object `{text: ...}` (the `else`
branch), or whatever a custom `chunkParser` returned. -/
inductive Emitted (CVal : Type) where
  | text (s : List Char)
  | obj (s : List Char)
  | custom (v : CVal)
deriving DecidableEq, Repr

/-- The string content of a built-in emission (`s` of `text s`/`obj s`). -/
def Emitted.textOf {CVal : Type} : Emitted CVal → List Char
  | .text s => s
  | .obj s => s
  | .custom _ => []

/-- Per-`parse`-invocation mutable state of the loop body: the running
`output` accumulator and the custom-parser `context` object. -/
structure ParseState (Ctx : Type) where
  output : List Char
  context : Ctx
deriving Repr, DecidableEq

/-- Built-in extraction of one record's fragment (`chunkContent` in the
source): `chunkType === 'text'` returns the payload unchanged; otherwise the
payload is trimmed, `JSON.parse`d (`jp`), and the `contentPath` is looked up
(`get`, modelled by `gp`), every failure collapsing to the empty string. -/
def fragOf {Ctx CVal J : Type} (opts : ParserOption Ctx CVal)
    (jp : List Char → Option J) (gp : J → String → Option (List Char))
    (data : List Char) : List Char :=
  if opts.chunkType = some ChunkType.text then data
  else
    match jp (trimChars data) with
    | none => []
    | some chunk => (gp chunk (opts.contentPath.getD "")).getD []

/-- One iteration of the source's `for` loop over `rows`: a row not starting
with `data:` is skipped (`continue`); otherwise `data = row.substring(5)` is
handed either to the custom parser (whose result is yielded, terminating the
generator when it is an `Error`) or to built-in extraction plus accumulation
and output shaping.  Returns (emissions, new state, generator terminated?). -/
def processRow {Ctx CVal J : Type} (opts : ParserOption Ctx CVal)
    (isErr : CVal → Bool) (jp : List Char → Option J)
    (gp : J → String → Option (List Char)) (st : ParseState Ctx)
    (row : List Char) : List (Emitted CVal) × ParseState Ctx × Bool :=
  if startsWithData row then
    let data := row.drop 5
    match opts.chunkParser with
    | some p =>
      let r := p data st.context
      ([Emitted.custom r.1], { st with context := r.2 }, isErr r.1)
    | none =>
      let chunkContent := fragOf opts jp gp data
      let output' :=
        if opts.autoConcat.getD false then st.output ++ chunkContent
        else st.output
      let outputText :=
        if opts.autoConcat.getD false then st.output ++ chunkContent
        else chunkContent
      let e :=
        if opts.outputType = some OutputType.text then Emitted.text outputText
        else Emitted.obj outputText
      ([e], { st with output := output' }, false)
  else ([], st, false)

/-- The source's `for (let i = 0; i < rows.length; i++)` loop over the
complete rows of one read, with the early `return` after an `Error` result
from the custom parser. -/
def processRows {Ctx CVal J : Type} (opts : ParserOption Ctx CVal)
    (isErr : CVal → Bool) (jp : List Char → Option J)
    (gp : J → String → Option (List Char)) :
    ParseState Ctx → List (List Char) →
    List (Emitted CVal) × ParseState Ctx × Bool
  | st, [] => ([], st, false)
  | st, row :: rest =>
    let r := processRow opts isErr jp gp st row
    if r.2.2 then (r.1, r.2.1, true)
    else
      let r2 := processRows opts isErr jp gp r.2.1 rest
      (r.1 ++ r2.1, r2.2.1, r2.2.2)

/-- The source's `while (true)` read loop.  For each pending chunk:
`text = unfinishedText + decoded`, `rows = text.split('\n')`; since the read
is not `done`, `unfinishedText = rows.pop() || ''` holds back the last piece
and only the remaining complete rows are processed.  An empty chunk list
models the final `{done:true}` read: its `value` is absent (`''`), nothing is
popped, every piece of `unfinishedText.split('\n')` is processed, and the
loop `break`s.  A `true` termination flag from `processRows` models the
generator's `return`: the remaining reads never happen. -/
def parseReads {Ctx CVal J : Type} (opts : ParserOption Ctx CVal)
    (isErr : CVal → Bool) (jp : List Char → Option J)
    (gp : J → String → Option (List Char)) :
    List Char → ParseState Ctx → List (List Char) → List (Emitted CVal)
  | unfinishedText, st, [] =>
    (processRows opts isErr jp gp st (splitNl unfinishedText)).1
  | unfinishedText, st, chunk :: rest =>
    let rows := splitNl (unfinishedText ++ chunk)
    let r := processRows opts isErr jp gp st rows.dropLast
    if r.2.2 then r.1
    else r.1 ++ parseReads opts isErr jp gp (rows.getLastD []) r.2.1 rest

/-- Model of `Parser.parse(reader)` as a function from the list of decoded chunks the
reader will deliver (followed by `{done:true}`) to the list of yielded
values.  `ctx0` is the fresh context object (`const context = {}` in the
source); `unfinishedText` and `output` start empty. -/
def Parser.parse {Ctx CVal J : Type} (opts : ParserOption Ctx CVal)
    (isErr : CVal → Bool) (jp : List Char → Option J)
    (gp : J → String → Option (List Char)) (ctx0 : Ctx)
    (chunks : List (List Char)) : List (Emitted CVal) :=
  parseReads opts isErr jp gp [] ⟨[], ctx0⟩ chunks

/-- The line-buffering part of `Parser.parse` in isolation: the sequence of
complete records the read loop hands to the row-processing loop, across all
reads including the final `{done:true}` pass. -/
def lineRecords : List Char → List (List Char) → List (List Char)
  | unfinishedText, [] => splitNl unfinishedText
  | unfinishedText, chunk :: rest =>
    let rows := splitNl (unfinishedText ++ chunk)
    rows.dropLast ++ lineRecords (rows.getLastD []) rest

/-- Splitting never returns the empty list (JavaScript `split` always yields
at least one piece). -/
theorem splitNl_ne_nil (s : List Char) : splitNl s ≠ [] := by
  induction s with
  | nil => simp [splitNl]
  | cons c rest ih =>
    simp only [splitNl]
    split
    · simp
    · cases h : splitNl rest with
      | nil => simp
      | cons r rs => simp

/-- For a nonempty list, `getLastD` ignores its fallback argument. -/
theorem getLastD_of_ne_nil {α : Type} {l : List α} (h : l ≠ []) (d d' : α) :
    l.getLastD d = l.getLastD d' := by
  cases l with
  | nil => exact absurd rfl h
  | cons a l' => rw [List.getLastD_cons, List.getLastD_cons]

/-- Gluing lemma for incremental splitting: splitting `a`, holding back the
last piece, and splitting it again in front of `b`, yields the same pieces as
splitting `a ++ b` outright. -/
theorem splitNl_glue (a b : List Char) :
    (splitNl a).dropLast ++ splitNl ((splitNl a).getLastD [] ++ b) =
      splitNl (a ++ b) := by
  induction a with
  | nil => simp [splitNl]
  | cons c a' ih =>
    obtain ⟨r, rs, h⟩ : ∃ r rs, splitNl a' = r :: rs := by
      cases h : splitNl a' with
      | nil => exact absurd h (splitNl_ne_nil a')
      | cons r rs => exact ⟨r, rs, rfl⟩
    rw [h] at ih
    by_cases hc : c = '\n'
    · subst hc
      have e1 : splitNl ('\n' :: a') = [] :: r :: rs := by simp [splitNl, h]
      have e2 : splitNl (('\n' :: a') ++ b) = [] :: splitNl (a' ++ b) := by
        simp [splitNl]
      rw [e1, e2, List.dropLast_cons_of_ne_nil (by simp), List.getLastD_cons,
        List.cons_append, ih]
    · have e1 : splitNl (c :: a') = (c :: r) :: rs := by simp [splitNl, hc, h]
      have e3 : splitNl ((c :: a') ++ b) =
          match splitNl (a' ++ b) with
          | [] => [[c]]
          | q :: qs => (c :: q) :: qs := by
        simp [splitNl, hc]
      cases rs with
      | nil =>
        have ih' : splitNl (r ++ b) = splitNl (a' ++ b) := by
          simpa using ih
        have e4 : splitNl ((c :: r) ++ b) =
            match splitNl (r ++ b) with
            | [] => [[c]]
            | q :: qs => (c :: q) :: qs := by
          simp [splitNl, hc]
        rw [e1, e3, List.dropLast_single, List.getLastD_cons, List.getLastD_nil,
          List.nil_append, e4, ih']
      | cons r2 rs2 =>
        rw [List.dropLast_cons_of_ne_nil (by simp), List.getLastD_cons,
          List.cons_append] at ih
        rw [e1, e3, List.dropLast_cons_of_ne_nil (by simp), List.getLastD_cons,
          getLastD_of_ne_nil (by simp) (c :: r) r, List.cons_append, ← ih]

/-- A `'\n'` inserted between `a` and `b` makes the two sides split
independently. -/
theorem splitNl_append_newline (a b : List Char) :
    splitNl (a ++ '\n' :: b) = splitNl a ++ splitNl b := by
  induction a with
  | nil => simp [splitNl]
  | cons c a' ih =>
    by_cases hc : c = '\n'
    · subst hc
      simp [splitNl, ih]
    · obtain ⟨r, rs, h⟩ : ∃ r rs, splitNl a' = r :: rs := by
        cases h : splitNl a' with
        | nil => exact absurd h (splitNl_ne_nil a')
        | cons r rs => exact ⟨r, rs, rfl⟩
      rw [h] at ih
      have e1 : splitNl (c :: a') = (c :: r) :: rs := by simp [splitNl, hc, h]
      have e2 : splitNl ((c :: a') ++ '\n' :: b) =
          match splitNl (a' ++ '\n' :: b) with
          | [] => [[c]]
          | q :: qs => (c :: q) :: qs := by
        simp [splitNl, hc]
      rw [e2, ih, e1]
      rfl

/-- A string without `'\n'` splits into exactly itself. -/
theorem splitNl_of_no_newline {s : List Char} (h : '\n' ∉ s) :
    splitNl s = [s] := by
  induction s with
  | nil => simp [splitNl]
  | cons c s' ih =>
    have hc : c ≠ '\n' := fun e => h (e ▸ List.mem_cons_self c s')
    have hs : '\n' ∉ s' := fun m => h (List.mem_cons_of_mem c m)
    simp [splitNl, hc, ih hs]

/-- The complete records the read loop produces from a chunk sequence are
exactly the split of the whole delivered text: buffering the unfinished tail
between reads loses and reorders nothing. -/
theorem lineRecords_eq_splitNl (cs : List (List Char)) (u : List Char) :
    lineRecords u cs = splitNl (u ++ cs.flatten) := by
  induction cs generalizing u with
  | nil => simp [lineRecords]
  | cons c cs' ih =>
    simp only [lineRecords, List.flatten_cons, ih, ← List.append_assoc]
    exact splitNl_glue (u ++ c) cs'.flatten

/-- A built-in (no custom parser) row step never sets the termination flag. -/
theorem processRow_not_halted {Ctx CVal J : Type} {opts : ParserOption Ctx CVal}
    (hnone : opts.chunkParser = none) (isErr : CVal → Bool)
    (jp : List Char → Option J) (gp : J → String → Option (List Char))
    (st : ParseState Ctx) (row : List Char) :
    (processRow opts isErr jp gp st row).2.2 = false := by
  unfold processRow
  rw [hnone]
  split <;> rfl

/-- A built-in run of the row loop never sets the termination flag. -/
theorem processRows_not_halted {Ctx CVal J : Type} {opts : ParserOption Ctx CVal}
    (hnone : opts.chunkParser = none) (isErr : CVal → Bool)
    (jp : List Char → Option J) (gp : J → String → Option (List Char))
    (st : ParseState Ctx) (rows : List (List Char)) :
    (processRows opts isErr jp gp st rows).2.2 = false := by
  induction rows generalizing st with
  | nil => rfl
  | cons row rest ih =>
    simp only [processRows]
    rw [processRow_not_halted hnone]
    simp only [Bool.false_eq_true, if_false]
    exact ih _

/-- In a built-in run the row loop is a homomorphism on row lists: processing
`xs ++ ys` is processing `xs`, then `ys` from the resulting state. -/
theorem processRows_append {Ctx CVal J : Type} {opts : ParserOption Ctx CVal}
    (hnone : opts.chunkParser = none) (isErr : CVal → Bool)
    (jp : List Char → Option J) (gp : J → String → Option (List Char))
    (st : ParseState Ctx) (xs ys : List (List Char)) :
    processRows opts isErr jp gp st (xs ++ ys) =
      ((processRows opts isErr jp gp st xs).1 ++
        (processRows opts isErr jp gp (processRows opts isErr jp gp st xs).2.1 ys).1,
       (processRows opts isErr jp gp (processRows opts isErr jp gp st xs).2.1 ys).2) := by
  induction xs generalizing st with
  | nil => simp [processRows]
  | cons row rest ih =>
    simp only [List.cons_append, processRows]
    rw [processRow_not_halted hnone]
    simp only [Bool.false_eq_true, if_false, List.append_eq]
    rw [ih]
    simp [List.append_assoc]

/-- In a built-in run (no custom parser, hence no early `return`), the
emissions of the read loop are exactly the emissions of processing the
records of the line-buffering decoder in order. -/
theorem parseReads_eq_processRows {Ctx CVal J : Type}
    {opts : ParserOption Ctx CVal} (hnone : opts.chunkParser = none)
    (isErr : CVal → Bool) (jp : List Char → Option J)
    (gp : J → String → Option (List Char)) (cs : List (List Char))
    (u : List Char) (st : ParseState Ctx) :
    parseReads opts isErr jp gp u st cs =
      (processRows opts isErr jp gp st (lineRecords u cs)).1 := by
  induction cs generalizing u st with
  | nil => rfl
  | cons c cs' ih =>
    simp only [parseReads, lineRecords]
    rw [processRows_not_halted hnone]
    simp only [Bool.false_eq_true, if_false]
    rw [ih, processRows_append hnone]

/-- The built-in fragments of a record sequence: one per `data:`-prefixed
record, in order. -/
def dataFrags {Ctx CVal J : Type} (opts : ParserOption Ctx CVal)
    (jp : List Char → Option J) (gp : J → String → Option (List Char))
    (rows : List (List Char)) : List (List Char) :=
  (rows.filter startsWithData).map (fun row => fragOf opts jp gp (row.drop 5))

/-- The successive `outputText` values of the built-in accumulation loop,
starting from accumulator `acc`: with `autoConcat` each step appends the
fragment to the accumulator and reports the whole accumulator, without it
each step reports the bare fragment. -/
def runningTexts (b : Bool) : List Char → List (List Char) → List (List Char)
  | _, [] => []
  | acc, f :: fs =>
    if b then (acc ++ f) :: runningTexts b (acc ++ f) fs
    else f :: runningTexts b acc fs

/-- The output shaping step of the source: `outputType === 'text'` emits the
string, anything else emits the `{text: ...}` object. -/
def shapeOf {Ctx CVal : Type} (opts : ParserOption Ctx CVal)
    (t : List Char) : Emitted CVal :=
  if opts.outputType = some OutputType.text then Emitted.text t
  else Emitted.obj t

/-- Built-in characterization of the row loop: its emissions are the shaped
running texts over the fragments of the `data:` records, and the final
accumulator appends exactly the concatenation of those fragments (when
`autoConcat` is on). -/
theorem processRows_builtin {Ctx CVal J : Type}
    {opts : ParserOption Ctx CVal} (hnone : opts.chunkParser = none)
    (isErr : CVal → Bool) (jp : List Char → Option J)
    (gp : J → String → Option (List Char)) (rows : List (List Char))
    (st : ParseState Ctx) :
    (processRows opts isErr jp gp st rows).1 =
      (runningTexts (opts.autoConcat.getD false) st.output
        (dataFrags opts jp gp rows)).map (shapeOf opts) := by
  induction rows generalizing st with
  | nil => simp [processRows, dataFrags, runningTexts]
  | cons row rest ih =>
    by_cases hd : startsWithData row
    · have hrow : processRow opts isErr jp gp st row =
          ([shapeOf opts (if opts.autoConcat.getD false
              then st.output ++ fragOf opts jp gp (row.drop 5)
              else fragOf opts jp gp (row.drop 5))],
           { st with output := if opts.autoConcat.getD false
              then st.output ++ fragOf opts jp gp (row.drop 5)
              else st.output }, false) := by
        unfold processRow
        rw [if_pos hd, hnone]
        by_cases hb : opts.autoConcat.getD false <;>
          simp [shapeOf, hb]
      simp only [processRows, hrow, Bool.false_eq_true, if_false]
      rw [ih]
      simp only [dataFrags, List.filter_cons_of_pos hd, List.map_cons,
        runningTexts]
      by_cases hb : opts.autoConcat.getD false <;> simp [hb, dataFrags]
    · have hrow : processRow opts isErr jp gp st row = ([], st, false) := by
        unfold processRow
        rw [if_neg hd]
      simp only [processRows, hrow, Bool.false_eq_true, if_false]
      rw [ih]
      simp only [dataFrags, List.filter_cons_of_neg hd, List.nil_append]

/-- Top-level built-in characterization of `Parser.parse`: the emitted values
are the shaped running texts over the fragments of the `data:` records of the
whole delivered text. -/
theorem parse_builtin {Ctx CVal J : Type} {opts : ParserOption Ctx CVal}
    (hnone : opts.chunkParser = none) (isErr : CVal → Bool)
    (jp : List Char → Option J) (gp : J → String → Option (List Char))
    (ctx0 : Ctx) (chunks : List (List Char)) :
    Parser.parse opts isErr jp gp ctx0 chunks =
      (runningTexts (opts.autoConcat.getD false) []
        (dataFrags opts jp gp (splitNl chunks.flatten))).map (shapeOf opts) := by
  unfold Parser.parse
  rw [parseReads_eq_processRows hnone, lineRecords_eq_splitNl,
    processRows_builtin hnone]
  simp

/-- Exactly one running text is produced per fragment. -/
theorem runningTexts_length (b : Bool) (acc : List Char)
    (fs : List (List Char)) : (runningTexts b acc fs).length = fs.length := by
  induction fs generalizing acc with
  | nil => rfl
  | cons f fs' ih =>
    cases b <;> simp [runningTexts, ih]

/-- With accumulation on, the `k`-th running text is the accumulator followed
by the concatenation of the first `k+1` fragments. -/
theorem runningTexts_getElem (acc : List Char) (fs : List (List Char))
    (k : Nat) (hk : k < fs.length) :
    (runningTexts true acc fs)[k]? =
      some (acc ++ (fs.take (k + 1)).flatten) := by
  induction fs generalizing acc k with
  | nil => exact absurd hk (by simp)
  | cons f fs' ih =>
    cases k with
    | zero => simp [runningTexts]
    | succ k' =>
      have hk' : k' < fs'.length := by simpa using hk
      simp [runningTexts, ih _ _ hk', List.take_succ_cons,
        List.append_assoc]

/-- Noninterference: `processRow` never reads `validateChunk`: replacing that field changes
nothing about a row step. -/
theorem processRow_validateChunk_irrel {Ctx CVal J : Type}
    (opts : ParserOption Ctx CVal)
    (v v' : Option (List Char → Option String)) (isErr : CVal → Bool)
    (jp : List Char → Option J) (gp : J → String → Option (List Char))
    (st : ParseState Ctx) (row : List Char) :
    processRow { opts with validateChunk := v } isErr jp gp st row =
      processRow { opts with validateChunk := v' } isErr jp gp st row := rfl

/-- Noninterference: `processRows` never reads `validateChunk`. -/
theorem processRows_validateChunk_irrel {Ctx CVal J : Type}
    (opts : ParserOption Ctx CVal)
    (v v' : Option (List Char → Option String)) (isErr : CVal → Bool)
    (jp : List Char → Option J) (gp : J → String → Option (List Char))
    (st : ParseState Ctx) (rows : List (List Char)) :
    processRows { opts with validateChunk := v } isErr jp gp st rows =
      processRows { opts with validateChunk := v' } isErr jp gp st rows := by
  induction rows generalizing st with
  | nil => rfl
  | cons row rest ih =>
    simp only [processRows,
      processRow_validateChunk_irrel opts v v' isErr jp gp st row, ih]

/-- Noninterference: `parseReads` never reads `validateChunk`. -/
theorem parseReads_validateChunk_irrel {Ctx CVal J : Type}
    (opts : ParserOption Ctx CVal)
    (v v' : Option (List Char → Option String)) (isErr : CVal → Bool)
    (jp : List Char → Option J) (gp : J → String → Option (List Char))
    (cs : List (List Char)) (u : List Char) (st : ParseState Ctx) :
    parseReads { opts with validateChunk := v } isErr jp gp u st cs =
      parseReads { opts with validateChunk := v' } isErr jp gp u st cs := by
  induction cs generalizing u st with
  | nil =>
    simp only [parseReads,
      processRows_validateChunk_irrel opts v v' isErr jp gp st]
  | cons c cs' ih =>
    simp only [parseReads,
      processRows_validateChunk_irrel opts v v' isErr jp gp st, ih]

/-- Dropping the `Option` layer on a present value: `a <|> b = a` when `a`
is `some`. -/
theorem orElse_of_isSome {α : Type} {a : Option α} (h : a.isSome = true)
    (b : Option α) : (a <|> b) = a := by
  cases a with
  | none => simp at h
  | some x => rfl

/-- Shaping then reading the text back is the identity on the text. -/
theorem textOf_shapeOf {Ctx CVal : Type} (opts : ParserOption Ctx CVal)
    (t : List Char) : (shapeOf opts t).textOf = t := by
  unfold shapeOf
  split <;> rfl

/-- Row step for a `data:` record under a custom parser: the parser is called
on `row.substring(5)` with the current context, its result is yielded, the
context is replaced by the parser's updated context, and the loop terminates
exactly when the result is an error instance. -/
theorem processRow_custom {Ctx CVal J : Type} {opts : ParserOption Ctx CVal}
    {p : List Char → Ctx → CVal × Ctx} (hp : opts.chunkParser = some p)
    (isErr : CVal → Bool) (jp : List Char → Option J)
    (gp : J → String → Option (List Char)) (st : ParseState Ctx)
    (row : List Char) (hd : startsWithData row = true) :
    processRow opts isErr jp gp st row =
      ([Emitted.custom (p (row.drop 5) st.context).1],
       { st with context := (p (row.drop 5) st.context).2 },
       isErr (p (row.drop 5) st.context).1) := by
  unfold processRow
  rw [if_pos hd, hp]

/-- Row step for a non-`data:` record: skipped silently, no state change. -/
theorem processRow_skip {Ctx CVal J : Type} (opts : ParserOption Ctx CVal)
    (isErr : CVal → Bool) (jp : List Char → Option J)
    (gp : J → String → Option (List Char)) (st : ParseState Ctx)
    (row : List Char) (hd : startsWithData row = false) :
    processRow opts isErr jp gp st row = ([], st, false) := by
  unfold processRow
  rw [if_neg (by simp [hd])]

/-- C2: for every preset factory (modelled for an arbitrary preset `config`)
and every caller-supplied options bundle, the resolved configuration is the
caller options overridden by the preset's fields — the preset wins on every
overlapping key; in particular `Parser.PRESETS.OpenAi({contentPath:'x'})`
resolves `contentPath` to `'choices[0].delta.content'` for every caller
bundle. -/
theorem c2_preset_precedence :
    (∀ (Ctx CVal : Type) (opts : ParserOption Ctx CVal),
      (Parser.PRESETS_OpenAi opts).contentPath =
        some "choices[0].delta.content")
    ∧ (∀ (Ctx CVal : Type) (config opts : ParserOption Ctx CVal),
        (config.chunkParser.isSome = true →
          (Parser.presetFactory config opts).chunkParser = config.chunkParser)
        ∧ (config.chunkType.isSome = true →
          (Parser.presetFactory config opts).chunkType = config.chunkType)
        ∧ (config.contentPath.isSome = true →
          (Parser.presetFactory config opts).contentPath = config.contentPath)
        ∧ (config.autoConcat.isSome = true →
          (Parser.presetFactory config opts).autoConcat = config.autoConcat)
        ∧ (config.outputType.isSome = true →
          (Parser.presetFactory config opts).outputType = config.outputType)
        ∧ (config.validateChunk.isSome = true →
          (Parser.presetFactory config opts).validateChunk =
            config.validateChunk)) := by
  constructor
  · intro Ctx CVal opts
    rfl
  · intro Ctx CVal config opts
    refine ⟨fun h => ?_, fun h => ?_, fun h => ?_, fun h => ?_,
      fun h => ?_, fun h => ?_⟩ <;>
      simp only [Parser.presetFactory, Parser.new, mergeOptions] <;>
      rw [orElse_of_isSome h, orElse_of_isSome h]

/-- Witness for C2 at concrete inputs. -/
theorem c2_preset_precedence_witness :
    (@Parser.PRESETS_OpenAi Unit Unit
        { contentPath := some "x" }).contentPath =
      some "choices[0].delta.content"
    ∧ (@Parser.presetFactory Unit Unit OpenAiConfig
        { chunkType := some ChunkType.text }).chunkType =
      some ChunkType.json :=
  ⟨c2_preset_precedence.1 Unit Unit { contentPath := some "x" },
   ((c2_preset_precedence.2 Unit Unit OpenAiConfig
      { chunkType := some ChunkType.text }).2.1 rfl).trans rfl⟩

/-- C3: with `autoConcat = true` and no custom parser, the text of the `k`-th
value emitted by `parse` equals the concatenation of the first `k+1`
extracted fragments of the stream's `data:` records, in arrival order. -/
theorem c3_accumulation (Ctx CVal J : Type) (opts : ParserOption Ctx CVal)
    (hnone : opts.chunkParser = none) (hauto : opts.autoConcat = some true)
    (isErr : CVal → Bool) (jp : List Char → Option J)
    (gp : J → String → Option (List Char)) (ctx0 : Ctx)
    (chunks : List (List Char)) (k : Nat)
    (hk : k < (dataFrags opts jp gp (splitNl chunks.flatten)).length) :
    ((Parser.parse opts isErr jp gp ctx0 chunks)[k]?).map Emitted.textOf =
      some (((dataFrags opts jp gp (splitNl chunks.flatten)).take
        (k + 1)).flatten) := by
  rw [parse_builtin hnone, List.getElem?_map, hauto]
  simp only [Option.getD_some]
  rw [runningTexts_getElem [] _ k hk]
  simp [textOf_shapeOf]

/-- Witness fixture: an error test that never fires. -/
def isErrU : Unit → Bool := fun _ => false

/-- Witness fixture: a `JSON.parse` model that always fails. -/
def jpU : List Char → Option Unit := fun _ => none

/-- Witness fixture: a path lookup that always misses. -/
def gpU : Unit → String → Option (List Char) := fun _ _ => none

/-- Witness fixture: a parser built with explicit `chunkType:'text'` and
`outputType:'text'`. -/
def optsTT : ParserOption Unit Unit :=
  Parser.new { chunkType := some ChunkType.text,
               outputType := some OutputType.text }

/-- Witness fixture: a parser built from the empty options bundle (all
defaults). -/
def optsD : ParserOption Unit Unit := Parser.new { }

/-- Witness fixture: a parser built with explicit `chunkType:'text'` only
(`outputType` left unset). -/
def optsText : ParserOption Unit Unit :=
  Parser.new { chunkType := some ChunkType.text }

/-- Witness fixture: an options bundle whose custom parser echoes its
payload and leaves the context alone. -/
def optsEcho : ParserOption (List Char) (List Char) :=
  { chunkParser := some (fun d c => (d, c)) }

/-- Witness fixture: an options bundle whose custom parser returns a unit
value which the error test below always classifies as an error. -/
def optsErr : ParserOption Unit Unit :=
  { chunkParser := some (fun _ c => ((), c)) }

/-- Witness fixture: an error test on `List Char` results that never
fires. -/
def isErrL : List Char → Bool := fun _ => false

/-- Witness fixture: an error test that always fires. -/
def isErrT : Unit → Bool := fun _ => true

/-- Witness for C3: two records `data:A`, `data:B` in one chunk; the second
emission is `'AB'`. -/
theorem c3_accumulation_witness :
    ((Parser.parse optsTT isErrU jpU gpU ()
        [['d','a','t','a',':','A','\n','d','a','t','a',':','B','\n']])[1]?).map
      Emitted.textOf = some ['A', 'B'] :=
  (c3_accumulation Unit Unit Unit optsTT rfl rfl isErrU jpU gpU ()
    [['d','a','t','a',':','A','\n','d','a','t','a',':','B','\n']] 1
    (by decide)).trans (by decide)

/-- C4: line reassembly is split-invariant — any chunking of the same text
produces the same records, in the same order, as delivering the whole text in
a single read; and in a built-in run the values emitted by the read loop are
exactly those obtained by processing the decoder's records in order. -/
theorem c4_split_invariance :
    (∀ chunks : List (List Char),
      lineRecords [] chunks = lineRecords [] [chunks.flatten])
    ∧ (∀ (Ctx CVal J : Type) (opts : ParserOption Ctx CVal),
        opts.chunkParser = none → ∀ (isErr : CVal → Bool)
        (jp : List Char → Option J) (gp : J → String → Option (List Char))
        (u : List Char) (st : ParseState Ctx) (cs : List (List Char)),
        parseReads opts isErr jp gp u st cs =
          (processRows opts isErr jp gp st (lineRecords u cs)).1) := by
  constructor
  · intro chunks
    rw [lineRecords_eq_splitNl, lineRecords_eq_splitNl]
    simp
  · intro Ctx CVal J opts hnone isErr jp gp u st cs
    exact parseReads_eq_processRows hnone isErr jp gp cs u st

/-- Witness for C4: the text `'a\nb'` delivered as `'a'` then `'\nb'` gives
the same records as in one read, and the parse/records agreement holds at a
concrete built-in configuration. -/
theorem c4_split_invariance_witness :
    lineRecords [] [['a'], ['\n', 'b']] = lineRecords [] [['a', '\n', 'b']]
    ∧ parseReads optsTT isErrU jpU gpU [] ⟨[], ()⟩ [['d','a','t','a',':','h','\n']] =
        (processRows optsTT isErrU jpU gpU ⟨[], ()⟩
          (lineRecords [] [['d','a','t','a',':','h','\n']])).1 :=
  ⟨(c4_split_invariance.1 [['a'], ['\n', 'b']]).trans (by decide),
   c4_split_invariance.2 Unit Unit Unit optsTT rfl isErrU jpU gpU []
     ⟨[], ()⟩ [['d','a','t','a',':','h','\n']]⟩

/-- C5: once the source reports done, every piece of the remaining buffer —
including a final segment with no trailing newline — is handed on as a
complete record in this final pass, and the final pass is all that remains
(the loop body for the done read reduces to `splitNl` of the buffer). -/
theorem c5_done_flush :
    (∀ u : List Char, lineRecords u [] = splitNl u)
    ∧ (∀ s t : List Char, '\n' ∉ t →
        lineRecords [] [s ++ '\n' :: t] = splitNl s ++ [t]) := by
  constructor
  · intro u
    rfl
  · intro s t ht
    simp only [lineRecords, List.nil_append]
    rw [splitNl_append_newline, splitNl_of_no_newline ht,
      List.dropLast_concat]
    have hlast : ((splitNl s ++ [t]).getLastD []) = t := by simp
    rw [hlast, splitNl_of_no_newline ht]

/-- Witness for C5: flushing the buffer `'x'` at end of stream, and the
unterminated trailing record `'b'` of `'a\nb'`. -/
theorem c5_done_flush_witness :
    lineRecords ['x'] [] = splitNl ['x']
    ∧ lineRecords [] [['a', '\n', 'b']] = splitNl ['a'] ++ [['b']] :=
  ⟨c5_done_flush.1 ['x'], c5_done_flush.2 ['a'] ['b'] (by decide)⟩

/-- C6: a record can contribute an emission only if it starts with the
literal 5-character prefix `data:` — all other records are skipped silently,
with no state change; the payload handed onward is exactly the record with
its first 5 characters removed (no trimming): a custom parser receives
`row.drop 5` verbatim, and under `chunkType:'text'` the extracted fragment is
the untouched payload itself. -/
theorem c6_filter_and_payload :
    (∀ (Ctx CVal J : Type) (opts : ParserOption Ctx CVal)
        (isErr : CVal → Bool) (jp : List Char → Option J)
        (gp : J → String → Option (List Char)) (st : ParseState Ctx)
        (row : List Char), startsWithData row = false →
        processRow opts isErr jp gp st row = ([], st, false))
    ∧ (∀ (Ctx CVal J : Type) (opts : ParserOption Ctx CVal)
        (p : List Char → Ctx → CVal × Ctx), opts.chunkParser = some p →
        ∀ (isErr : CVal → Bool) (jp : List Char → Option J)
        (gp : J → String → Option (List Char)) (st : ParseState Ctx)
        (row : List Char), startsWithData row = true →
        processRow opts isErr jp gp st row =
          ([Emitted.custom (p (row.drop 5) st.context).1],
           { st with context := (p (row.drop 5) st.context).2 },
           isErr (p (row.drop 5) st.context).1))
    ∧ (∀ (Ctx CVal J : Type) (opts : ParserOption Ctx CVal),
        opts.chunkType = some ChunkType.text →
        ∀ (jp : List Char → Option J) (gp : J → String → Option (List Char))
        (data : List Char), fragOf opts jp gp data = data) := by
  refine ⟨?_, ?_, ?_⟩
  · intro Ctx CVal J opts isErr jp gp st row hd
    exact processRow_skip opts isErr jp gp st row hd
  · intro Ctx CVal J opts p hp isErr jp gp st row hd
    exact processRow_custom hp isErr jp gp st row hd
  · intro Ctx CVal J opts ht jp gp data
    simp [fragOf, ht]

/-- Witness for C6: an `event:`-style record is skipped; a custom parser
receives exactly the 5-character-stripped payload; text extraction keeps the
payload verbatim (leading space preserved). -/
theorem c6_filter_and_payload_witness :
    processRow optsD isErrU jpU gpU
        ⟨[], ()⟩ ['e','v','e','n','t',':','x'] = ([], ⟨[], ()⟩, false)
    ∧ processRow optsEcho isErrL jpU gpU ⟨[], []⟩
        ['d','a','t','a',':',' ','h','i'] =
          ([Emitted.custom [' ', 'h', 'i']], ⟨[], []⟩, false)
    ∧ fragOf optsText jpU gpU [' ', 'h', 'i'] = [' ', 'h', 'i'] :=
  ⟨c6_filter_and_payload.1 Unit Unit Unit optsD isErrU jpU gpU ⟨[], ()⟩
      ['e','v','e','n','t',':','x'] (by decide),
   (c6_filter_and_payload.2.1 (List Char) (List Char) Unit
      optsEcho (fun d c => (d, c)) rfl isErrL jpU gpU ⟨[], []⟩
      ['d','a','t','a',':',' ','h','i'] (by decide)).trans rfl,
   c6_filter_and_payload.2.2 Unit Unit Unit optsText rfl jpU gpU
      [' ', 'h', 'i']⟩

/-- C7: under built-in extraction with `chunkType:'json'`, a payload whose
(trimmed) text fails `JSON.parse` yields the empty fragment; a payload that
parses but whose `contentPath` is absent also yields the empty fragment (the
fragment is always the path lookup defaulted to empty); and a built-in row
never terminates the loop — processing always continues with the next
record. -/
theorem c7_json_failure_tolerance :
    (∀ (Ctx CVal J : Type) (opts : ParserOption Ctx CVal),
        opts.chunkType = some ChunkType.json →
        ∀ (jp : List Char → Option J) (gp : J → String → Option (List Char))
        (data : List Char), jp (trimChars data) = none →
        fragOf opts jp gp data = [])
    ∧ (∀ (Ctx CVal J : Type) (opts : ParserOption Ctx CVal),
        opts.chunkType = some ChunkType.json →
        ∀ (jp : List Char → Option J) (gp : J → String → Option (List Char))
        (data : List Char) (c : J), jp (trimChars data) = some c →
        fragOf opts jp gp data =
          (gp c (opts.contentPath.getD "")).getD [])
    ∧ (∀ (Ctx CVal J : Type) (opts : ParserOption Ctx CVal),
        opts.chunkParser = none → ∀ (isErr : CVal → Bool)
        (jp : List Char → Option J) (gp : J → String → Option (List Char))
        (st : ParseState Ctx) (row : List Char) (rest : List (List Char)),
        processRows opts isErr jp gp st (row :: rest) =
          ((processRow opts isErr jp gp st row).1 ++
            (processRows opts isErr jp gp
              (processRow opts isErr jp gp st row).2.1 rest).1,
           (processRows opts isErr jp gp
              (processRow opts isErr jp gp st row).2.1 rest).2)) := by
  refine ⟨?_, ?_, ?_⟩
  · intro Ctx CVal J opts ht jp gp data hjp
    simp [fragOf, ht, hjp]
  · intro Ctx CVal J opts ht jp gp data c hjp
    simp [fragOf, ht, hjp]
  · intro Ctx CVal J opts hnone isErr jp gp st row rest
    simp only [processRows]
    rw [processRow_not_halted hnone]
    simp

/-- Witness for C7: a malformed payload under the always-failing `JSON.parse`
model gives the empty fragment; a parsed payload with a missing path gives
the empty fragment; and processing a malformed record continues into the
following record. -/
theorem c7_json_failure_tolerance_witness :
    fragOf optsD jpU gpU ['b', 'a', 'd'] = []
    ∧ fragOf optsD (fun _ => some ()) gpU ['o', 'k'] = []
    ∧ processRows optsD isErrU jpU gpU ⟨[], ()⟩
        [['d','a','t','a',':','b','a','d'], ['d','a','t','a',':','x']] =
        ((processRow optsD isErrU jpU gpU ⟨[], ()⟩
            ['d','a','t','a',':','b','a','d']).1 ++
          (processRows optsD isErrU jpU gpU
            (processRow optsD isErrU jpU gpU ⟨[], ()⟩
              ['d','a','t','a',':','b','a','d']).2.1
            [['d','a','t','a',':','x']]).1,
         (processRows optsD isErrU jpU gpU
            (processRow optsD isErrU jpU gpU ⟨[], ()⟩
              ['d','a','t','a',':','b','a','d']).2.1
            [['d','a','t','a',':','x']]).2) :=
  ⟨c7_json_failure_tolerance.1 Unit Unit Unit optsD rfl jpU gpU
      ['b', 'a', 'd'] rfl,
   (c7_json_failure_tolerance.2.1 Unit Unit Unit optsD rfl
      (fun _ => some ()) gpU ['o', 'k'] () rfl).trans rfl,
   c7_json_failure_tolerance.2.2 Unit Unit Unit optsD rfl isErrU
      jpU gpU ⟨[], ()⟩ ['d','a','t','a',':','b','a','d']
      [['d','a','t','a',':','x']]⟩

/-- C8: when the configured custom parser returns an error instance for a
`data:` record, that error is emitted exactly once and the decode operation
terminates: the remaining records of the current read are not processed, and
once the termination flag is set no further reads happen — the result of the
read loop is independent of whatever chunks would have followed. -/
theorem c8_custom_error_terminates :
    (∀ (Ctx CVal J : Type) (opts : ParserOption Ctx CVal)
        (p : List Char → Ctx → CVal × Ctx), opts.chunkParser = some p →
        ∀ (isErr : CVal → Bool) (jp : List Char → Option J)
        (gp : J → String → Option (List Char)) (st : ParseState Ctx)
        (row : List Char) (rest : List (List Char)),
        startsWithData row = true →
        isErr (p (row.drop 5) st.context).1 = true →
        processRows opts isErr jp gp st (row :: rest) =
          ([Emitted.custom (p (row.drop 5) st.context).1],
           { st with context := (p (row.drop 5) st.context).2 }, true))
    ∧ (∀ (Ctx CVal J : Type) (opts : ParserOption Ctx CVal)
        (isErr : CVal → Bool) (jp : List Char → Option J)
        (gp : J → String → Option (List Char)) (u : List Char)
        (st : ParseState Ctx) (chunk : List Char)
        (rest rest2 : List (List Char)),
        (processRows opts isErr jp gp st
            (splitNl (u ++ chunk)).dropLast).2.2 = true →
        parseReads opts isErr jp gp u st (chunk :: rest) =
          (processRows opts isErr jp gp st
            (splitNl (u ++ chunk)).dropLast).1
        ∧ parseReads opts isErr jp gp u st (chunk :: rest) =
            parseReads opts isErr jp gp u st (chunk :: rest2)) := by
  constructor
  · intro Ctx CVal J opts p hp isErr jp gp st row rest hd he
    simp only [processRows, processRow_custom hp isErr jp gp st row hd, he,
      if_true]
  · intro Ctx CVal J opts isErr jp gp u st chunk rest rest2 h
    constructor
    · simp only [parseReads, h, if_true]
    · simp only [parseReads, h, if_true]

/-- Witness for C8: a custom parser whose result is always an error, on the
record `data:x`: one emission, termination, and the second read never
matters. -/
theorem c8_custom_error_terminates_witness :
    processRows optsErr isErrT jpU gpU
        ⟨[], ()⟩ [['d','a','t','a',':','x'], ['d','a','t','a',':','y']] =
        ([Emitted.custom ()], ⟨[], ()⟩, true)
    ∧ parseReads optsErr isErrT jpU gpU
        [] ⟨[], ()⟩ [['d','a','t','a',':','x','\n'], ['l','a','t','e','r']] =
        parseReads optsErr isErrT jpU gpU [] ⟨[], ()⟩
          [['d','a','t','a',':','x','\n']] :=
  ⟨(c8_custom_error_terminates.1 Unit Unit Unit
      optsErr (fun _ c => ((), c)) rfl
      isErrT jpU gpU ⟨[], ()⟩ ['d','a','t','a',':','x']
      [['d','a','t','a',':','y']] (by decide) rfl).trans rfl,
   (c8_custom_error_terminates.2 Unit Unit Unit
      optsErr isErrT jpU gpU
      [] ⟨[], ()⟩ ['d','a','t','a',':','x','\n'] [['l','a','t','e','r']] []
      (by decide)).2⟩

/-- C9: `validateChunk` is never consulted by `parse` — for every input
stream, the emitted value sequence is identical for any two configurations
differing only in their `validateChunk` field (in particular set versus
unset).  This holds for every configuration, with or without a custom
parser. -/
theorem c9_validateChunk_noninterference (Ctx CVal J : Type)
    (opts : ParserOption Ctx CVal)
    (v v' : Option (List Char → Option String)) (isErr : CVal → Bool)
    (jp : List Char → Option J) (gp : J → String → Option (List Char))
    (ctx0 : Ctx) (chunks : List (List Char)) :
    Parser.parse { opts with validateChunk := v } isErr jp gp ctx0 chunks =
      Parser.parse { opts with validateChunk := v' } isErr jp gp ctx0
        chunks :=
  parseReads_validateChunk_irrel opts v v' isErr jp gp chunks [] ⟨[], ctx0⟩

/-- C10: under built-in extraction, `parse` emits exactly one value per
`data:`-prefixed record of the delivered text, in record order — the emitted
sequence is the shaped running output after each such record (so a record
whose fragment is empty still produces an emission of the current result
text), and its length is the number of `data:` records. -/
theorem c10_one_emission_per_data_record (Ctx CVal J : Type)
    (opts : ParserOption Ctx CVal) (hnone : opts.chunkParser = none)
    (isErr : CVal → Bool) (jp : List Char → Option J)
    (gp : J → String → Option (List Char)) (ctx0 : Ctx)
    (chunks : List (List Char)) :
    Parser.parse opts isErr jp gp ctx0 chunks =
      (runningTexts (opts.autoConcat.getD false) []
        (dataFrags opts jp gp (splitNl chunks.flatten))).map (shapeOf opts)
    ∧ (Parser.parse opts isErr jp gp ctx0 chunks).length =
        ((splitNl chunks.flatten).filter startsWithData).length := by
  refine ⟨parse_builtin hnone isErr jp gp ctx0 chunks, ?_⟩
  rw [parse_builtin hnone, List.length_map, runningTexts_length, dataFrags,
    List.length_map]

/-- Witness for C10: one malformed-JSON record still yields exactly one
emission (of the empty current output, as an object since `outputType` is
unset). -/
theorem c10_one_emission_per_data_record_witness :
    (Parser.parse optsD isErrU jpU gpU ()
        [['d','a','t','a',':','b','a','d','\n']]).length = 1
    ∧ Parser.parse optsD isErrU jpU gpU ()
        [['d','a','t','a',':','b','a','d','\n']] = [Emitted.obj []] :=
  ⟨((c10_one_emission_per_data_record Unit Unit Unit optsD rfl
      isErrU jpU gpU () [['d','a','t','a',':','b','a','d','\n']]).2).trans
    (by decide),
   ((c10_one_emission_per_data_record Unit Unit Unit optsD rfl
      isErrU jpU gpU () [['d','a','t','a',':','b','a','d','\n']]).1).trans
    (by decide)⟩

/-- C1 (refutation of the claim, exhibiting the code's actual behaviour): a
parser constructed without an explicit `outputType` — here
`new Parser({chunkType:'text'})` — resolves `outputType` to absent, because
`defaultOptions` does not set it, and built-in extraction on the record
`data:hi` then emits the object `{text:'hi'}` rather than the plain string
`'hi'`: the object shape is emitted whenever `outputType` is not exactly
`'text'`, not only when it is explicitly `'obj'`.  This contradicts the
option's own `@default 'text'` documentation in the source. -/
theorem c1_default_outputType_emits_obj :
    (@Parser.new Unit Unit { chunkType := some ChunkType.text }).outputType
        = none
    ∧ Parser.parse (@Parser.new Unit Unit
          { chunkType := some ChunkType.text }) isErrU jpU gpU ()
        [['d','a','t','a',':','h','i','\n']] = [Emitted.obj ['h', 'i']]
    ∧ Parser.parse optsTT isErrU jpU gpU ()
        [['d','a','t','a',':','h','i','\n']] = [Emitted.text ['h', 'i']] := by
  refine ⟨rfl, by decide, by decide⟩
